import Mathlib

/-!
Verification of the sakani data-collection pipeline.

This file shallowly embeds the concurrent collection engine of the
repository: the JSON record model (Python dicts as association lists),
the per-unit enricher `enrich_unit`, the per-ID collectors
`_collect_single_project_data` / `_collect_single_market_unit`, the
locked dedup-commit step of `_collect_projects_batch` /
`_collect_market_units_batch`, the orchestrator's category sequencing,
the `GlobalRateLimiter` pause gate and the `HTTPClient.make_request`
wrapper.  External collaborators (the HTTP transport and the remote
catalog API) are modelled as oracles indexed by the retry-attempt
number, so that a retried call may observe a different answer.
Concurrency is modelled by quantifying over the order in which worker
completions reach the lock-protected commit section: the critical
section itself (membership test + insert + append, held under the
collector's single lock in the source) executes atomically, so any
interleaving of workers is some sequence of atomic commit steps.
-/

namespace Sakani

/-- JSON values as produced by `response.json()` in `http_client.py`. -/
inductive Value where
  | null : Value
  | bool (b : Bool) : Value
  | num (n : Int) : Value
  | str (s : String) : Value
  | arr (xs : List Value) : Value
  | obj (fields : List (String × Value)) : Value
deriving Repr

/-- A Python dict with string keys, as an insertion-ordered association list. -/
abbrev Dict := List (String × Value)

/-- The keys of a dict, in insertion order. -/
def dictKeys (d : Dict) : List String := d.map Prod.fst

/-- Python `d[k]` / `d.get(k)`: the value stored at `k`, if any. -/
def dictLookup : Dict → String → Option Value
  | [], _ => none
  | (k, v) :: rest, key => if key = k then some v else dictLookup rest key

/-- Replace a binding by `(k, v)` when its key is `k`. -/
def replacePair (k : String) (v : Value) (p : String × Value) : String × Value :=
  if p.1 = k then (k, v) else p

/-- Python `d[k] = v`: update the value in place if the key exists,
otherwise append the new binding at the end (dict insertion order). -/
def dictInsert (d : Dict) (k : String) (v : Value) : Dict :=
  if k ∈ dictKeys d then
    d.map (replacePair k v)
  else
    d ++ [(k, v)]

/-- Python `{**a, **b}` (and dict unpacking in a literal): start from `a`
and insert every binding of `b` in order, so `b`'s values win on key
collision while `a`'s key positions are preserved. -/
def dictMerge (a : Dict) : Dict → Dict
  | [] => a
  | (k, v) :: rest => dictMerge (dictInsert a k v) rest

/-- Python truthiness (`if not x`) on a JSON value: `None`, `False`, `0`,
`""`, `[]` and `{}` are falsy. -/
def isFalsy : Value → Bool
  | .null => true
  | .bool b => !b
  | .num n => n == 0
  | .str s => s == ""
  | .arr xs => xs.isEmpty
  | .obj fs => fs.isEmpty

/-- A dict has no duplicate keys (true of every dict built by Python,
and preserved by all operations here). -/
def NodupKeys (d : Dict) : Prop := (dictKeys d).Nodup

/-! ## RateGate: `GlobalRateLimiter` (`rate_limiter.py`)

`trigger_global_pause` runs its whole body inside `with self.lock`,
including the `time.sleep`.  Hence concurrent calls serialize on the
lock: any concurrent execution of n calls is n sequential executions of
the locked body.  The body reads the `pause_event` flag (`is_set`),
and if set performs clear → sleep → set. -/

/-- Observable effects of the locked body of `trigger_global_pause`. -/
inductive GateEv where
  | clearPauseEvent : GateEv
  | sleepSeconds (n : Nat) : GateEv
  | setPauseEvent : GateEv
deriving Repr, DecidableEq

/-- The locked body of `GlobalRateLimiter.trigger_global_pause`
(lines 16-24 of `rate_limiter.py`): state is whether `pause_event` is
set (`true` = OPEN).  Returns the new state and the emitted effects. -/
def trigger_global_pause_locked (pause_duration_minutes : Nat) (eventSet : Bool) :
    Bool × List GateEv :=
  if eventSet then
    (true, [GateEv.clearPauseEvent,
            GateEv.sleepSeconds (pause_duration_minutes * 60),
            GateEv.setPauseEvent])
  else
    (eventSet, [])

/-- `n` concurrent `trigger_global_pause` calls, serialized by the lock
(the entire body is the critical section, so this is the only possible
interleaving shape). -/
def runSerializedTriggers (pause_duration_minutes : Nat) : Nat → Bool → Bool × List GateEv
  | 0, s => (s, [])
  | n + 1, s =>
    let r := trigger_global_pause_locked pause_duration_minutes s
    let r' := runSerializedTriggers pause_duration_minutes n r.1
    (r'.1, r.2 ++ r'.2)

/-- Number of pause episodes (sleeps) in a trace. -/
def countSleepEvents (t : List GateEv) : Nat :=
  t.countP fun e => match e with | GateEv.sleepSeconds _ => true | _ => false

/-! ## FetchClient: `HTTPClient.make_request` (`http_client.py`)

The transport (`curl_cffi.requests.get`) is an oracle: either it raises
(`RequestsError`) or returns a response with a status code and a body
whose JSON parse may itself fail.  The function's observable effects are
recorded as a trace. -/

/-- A completed HTTP response: status code plus the result of parsing
its body as JSON (`response.json()` may raise `JSONDecodeError`). -/
structure HttpResponse where
  status_code : Nat
  body : Except Unit Value

/-- Failures raised by `make_request`. -/
inductive ReqError where
  | transportError : ReqError
  | statusError (code : Nat) : ReqError
  | parseError : ReqError
deriving Repr, DecidableEq

/-- Observable effects of one `make_request` invocation. -/
inductive HttpEv where
  | waitIfPaused : HttpEv
  | httpGet (url : String) : HttpEv
  | pacingSleep (lo hi : ℚ) : HttpEv
  | triggerGlobalPause (status : Nat) (url : String) : HttpEv
deriving Repr, DecidableEq

/-- Is an event the pacing sleep? -/
def isPacingSleep : HttpEv → Bool
  | HttpEv.pacingSleep _ _ => true
  | _ => false

/-- `HTTPClient.make_request` (lines 39-69 of `http_client.py`).
`transport` is the outcome of `requests.get`: `.error` models a raised
`RequestsError` (re-raised by the `except` clause), `.ok` a response.
The pacing delay `random.uniform(speed_factor - 0.02, speed_factor + 0.02)`
is recorded as a `pacingSleep` event carrying the window bounds; it is
executed right after `requests.get` returns, before any status check,
and is therefore skipped when the transport itself raises. -/
def make_request (speed_factor : ℚ) (allow_404 : Bool) (url : String)
    (transport : Except Unit HttpResponse) : Except ReqError Value × List HttpEv :=
  let evs := [HttpEv.waitIfPaused, HttpEv.httpGet url]
  match transport with
  | .error _ => (.error .transportError, evs)
  | .ok resp =>
    let evs := evs ++ [HttpEv.pacingSleep (speed_factor - 1/50) (speed_factor + 1/50)]
    if allow_404 && resp.status_code == 404 then
      (.ok (Value.obj []), evs)
    else if resp.status_code == 403 || resp.status_code == 429 then
      (.error (.statusError resp.status_code),
       evs ++ [HttpEv.triggerGlobalPause resp.status_code url])
    else if resp.status_code != 200 then
      (.error (.statusError resp.status_code), evs)
    else
      match resp.body with
      | .error _ => (.error .parseError, evs)
      | .ok v => (.ok v, evs)

/-! ## BatchCollector / Enricher: `ProjectDataCollector` (`data_collector.py`)

The collaborator `SakaniAPIClient` is an oracle.  Every method takes the
current retry-attempt index of its caller first, so a retried call may
observe a different answer; within one outer attempt all calls share
that attempt index.  `.error` models a raised exception, `.ok` a
returned JSON value (which may be empty/falsy). -/

/-- The configuration flags of `ProjectDataCollector.__init__`. -/
structure CollectorConfig where
  max_retries : Nat
  unit_insights : Bool
  unit_project_trends : Bool
  unit_transactions : Bool
  project_insight : Bool
  price_trends : Bool
  project_transactions : Bool
  demographics : Bool

/-- Oracle for the `SakaniAPIClient` collaborator (`api_client.py`),
indexed by the caller's retry-attempt number.  The unit-level methods
receive the raw `unit.get("id", "")` value. -/
structure SakaniAPI where
  get_project_details : Nat → String → Except Unit Dict
  get_price_trends : Nat → String → Except Unit Value
  get_demographics : Nat → String → Except Unit Value
  get_project_insight : Nat → String → Except Unit Value
  get_project_transactions : Nat → String → Except Unit Value
  get_available_units : Nat → String → Except Unit (List Dict)
  get_unit_models : Nat → String → Except Unit Value
  get_unit_insights : Nat → Value → Except Unit Value
  get_unit_project_trends : Nat → Value → Except Unit Value
  get_unit_transactions : Nat → Value → Except Unit Value
  get_market_unit_details : Nat → String → Except Unit Dict
  extract_project_data : Dict → Dict

/-- The three empty placeholders prepended by `enrich_unit` when
secondary fetching is disabled, the unit has no usable id, or retries
are exhausted: `{"unit_insights": {}, "unit_project_trends": [],
"unit_transactions": []}` (spread before `**unit`). -/
def emptyUnitEnrichment : Dict :=
  [("unit_insights", Value.obj []),
   ("unit_project_trends", Value.arr []),
   ("unit_transactions", Value.arr [])]

/-- One iteration of `enrich_unit`'s `try` block (lines 95-117 of
`data_collector.py`): run the enabled secondary fetches in order,
short-circuiting on the first raised exception.  Returns the three
fetched values (disabled flags yield the empty defaults set at the top
of the `try`) and the number of secondary network calls issued. -/
def enrichAttempt (cfg : CollectorConfig) (api : SakaniAPI) (i : Nat) (uid : Value) :
    Except Unit (Value × Value × Value) × Nat :=
  let insR := if cfg.unit_insights then (api.get_unit_insights i uid, 1)
              else (Except.ok (Value.obj []), 0)
  match insR.1 with
  | .error e => (.error e, insR.2)
  | .ok ins =>
    let trR := if cfg.unit_project_trends then (api.get_unit_project_trends i uid, 1)
               else (Except.ok (Value.arr []), 0)
    match trR.1 with
    | .error e => (.error e, insR.2 + trR.2)
    | .ok tr =>
      let txR := if cfg.unit_transactions then (api.get_unit_transactions i uid, 1)
                 else (Except.ok (Value.arr []), 0)
      match txR.1 with
      | .error e => (.error e, insR.2 + trR.2 + txR.2)
      | .ok tx => (.ok (ins, tr, tx), insR.2 + trR.2 + txR.2)

/-- The retry loop of `enrich_unit` (lines 94-127): `remaining` attempts
left, `i` the current attempt index, `calls` the secondary calls made so
far.  A successful attempt returns the three fetched values spread
before `**unit`; a failure on the last attempt (and the unreachable
loop fall-through when `max_retries = 0`) returns the empty
placeholders spread before `**unit`. -/
def enrichLoop (cfg : CollectorConfig) (api : SakaniAPI) (uid : Value) (unit : Dict) :
    Nat → Nat → Nat → Dict × Nat
  | 0, _, calls => (dictMerge emptyUnitEnrichment unit, calls)
  | r + 1, i, calls =>
    match enrichAttempt cfg api i uid with
    | (.ok (ins, tr, tx), c) =>
      (dictMerge [("unit_insights", ins), ("unit_project_trends", tr),
                  ("unit_transactions", tx)] unit, calls + c)
    | (.error _, c) =>
      if r = 0 then (dictMerge emptyUnitEnrichment unit, calls + c)
      else enrichLoop cfg api uid unit r (i + 1) (calls + c)

/-- `enrich_unit` (lines 86-127 of `data_collector.py`): returns the
enriched child record together with the number of secondary network
calls issued. -/
def enrich_unit (cfg : CollectorConfig) (api : SakaniAPI) (unit : Dict) : Dict × Nat :=
  if !(cfg.unit_insights || cfg.unit_project_trends || cfg.unit_transactions) then
    (dictMerge emptyUnitEnrichment unit, 0)
  else if isFalsy ((dictLookup unit "id").getD (Value.str "")) then
    (dictMerge emptyUnitEnrichment unit, 0)
  else
    enrichLoop cfg api ((dictLookup unit "id").getD (Value.str "")) unit
      cfg.max_retries 0 0

/-- `_collect_available_units_with_details` (lines 80-151), sequential
path: fetch the child units and enrich each in order (`enrich_unit`
never raises, so the `except` arms of lines 138-141/147-149 are dead).
A raised `get_available_units` propagates to the caller's `try`. -/
def collect_available_units_with_details (cfg : CollectorConfig) (api : SakaniAPI)
    (i : Nat) (project_id : String) : Except Unit Value :=
  match api.get_available_units i project_id with
  | .error e => .error e
  | .ok units =>
    if units.isEmpty then .ok (Value.arr [])
    else .ok (Value.arr (units.map fun u => Value.obj (enrich_unit cfg api u).1))

/-- One iteration of `_collect_single_project_data`'s `try` block
(lines 35-69): `.ok none` models the falsy-`json_data` path (retry or
give up), `.error` a raised exception anywhere in the block. -/
def collect_project_attempt (cfg : CollectorConfig) (api : SakaniAPI)
    (i : Nat) (project_id : String) : Except Unit (Option Dict) := do
  let json_data ← api.get_project_details i project_id
  if isFalsy (Value.obj json_data) then
    return none
  else
    let e0 := api.extract_project_data json_data
    let pt ← if cfg.price_trends then api.get_price_trends i project_id
             else pure (Value.arr [])
    let e1 := dictInsert e0 "price_trends" pt
    let dm ← if cfg.demographics then api.get_demographics i project_id
             else pure (Value.obj [])
    let e2 := dictInsert e1 "demographics" dm
    let pin ← if cfg.project_insight then api.get_project_insight i project_id
              else pure (Value.obj [])
    let e3 := dictInsert e2 "project_insight" pin
    let ptx ← if cfg.project_transactions then api.get_project_transactions i project_id
              else pure (Value.arr [])
    let e4 := dictInsert e3 "project_transactions" ptx
    let au ← collect_available_units_with_details cfg api i project_id
    let e5 := dictInsert e4 "available_units" au
    let um ← api.get_unit_models i project_id
    return some (dictInsert e5 "unit_models" um)

/-- The retry loop of `_collect_single_project_data` (lines 34-78):
empty data or a raised exception retries unless this was the last
attempt, in which case the routine returns `None`. -/
def collectProjectLoop (cfg : CollectorConfig) (api : SakaniAPI) (project_id : String) :
    Nat → Nat → Option Dict
  | 0, _ => none
  | r + 1, i =>
    match collect_project_attempt cfg api i project_id with
    | .ok (some d) => some d
    | .ok none => if r = 0 then none else collectProjectLoop cfg api project_id r (i + 1)
    | .error _ => if r = 0 then none else collectProjectLoop cfg api project_id r (i + 1)

/-- `_collect_single_project_data` (lines 33-78 of `data_collector.py`). -/
def collect_single_project_data (cfg : CollectorConfig) (api : SakaniAPI)
    (project_id : String) : Option Dict :=
  collectProjectLoop cfg api project_id cfg.max_retries 0

/-- The retry loop of `_collect_single_market_unit` (lines 212-228):
truthy data returns `{"unit_id": unit_id, **unit_data}`; empty data or
a raised exception retries unless this was the last attempt. -/
def collectMarketUnitLoop (api : SakaniAPI) (unit_id : String) : Nat → Nat → Option Dict
  | 0, _ => none
  | r + 1, i =>
    match api.get_market_unit_details i unit_id with
    | .ok d =>
      if d.isEmpty then
        if r = 0 then none else collectMarketUnitLoop api unit_id r (i + 1)
      else some (dictMerge [("unit_id", Value.str unit_id)] d)
    | .error _ => if r = 0 then none else collectMarketUnitLoop api unit_id r (i + 1)

/-- `_collect_single_market_unit` (lines 211-228 of `data_collector.py`). -/
def collect_single_market_unit (cfg : CollectorConfig) (api : SakaniAPI)
    (unit_id : String) : Option Dict :=
  collectMarketUnitLoop api unit_id cfg.max_retries 0

/-! ## The locked dedup-commit step and the batch runners

Both `_collect_projects_batch` and `_collect_market_units_batch` commit
a completed result with the same protocol (lines 163-169, 191-193,
240-246, 261-264): if the result is truthy, acquire `self.lock`, test
the processed-ID set, and only if absent append the record to the
category's output list and insert the ID — one atomic critical section.
A batch run is a sequence of such commits: in sequential mode the
completions arrive in input order; with the thread pool they arrive in
an arbitrary completion order (`as_completed`), each commit still
executing atomically under the lock. -/

/-- Collector commit state: the processed-ID set (as an unordered list)
and the category's output list, each record tagged with the ID under
which it was committed. -/
abbrev BatchState := List String × List (String × Dict)

/-- The atomic lock-protected commit of one completed per-ID result. -/
def commitStep (st : BatchState) (ev : String × Option Dict) : BatchState :=
  match ev.2 with
  | none => st
  | some d => if ev.1 ∈ st.1 then st else (ev.1 :: st.1, st.2 ++ [(ev.1, d)])

/-- Run a sequence of completion events through the locked commit. -/
def runCommits (evs : List (String × Option Dict)) (st : BatchState) : BatchState :=
  evs.foldl commitStep st

/-- `_collect_projects_batch` (lines 153-209), sequential path: each ID
is collected on the calling thread in input order and committed. -/
def collect_projects_batch_seq (cfg : CollectorConfig) (api : SakaniAPI)
    (project_ids : List String) (st : BatchState) : BatchState :=
  runCommits (project_ids.map fun pid => (pid, collect_single_project_data cfg api pid)) st

/-- `_collect_market_units_batch` (lines 230-273), sequential path. -/
def collect_market_units_batch_seq (cfg : CollectorConfig) (api : SakaniAPI)
    (unit_ids : List String) (st : BatchState) : BatchState :=
  runCommits (unit_ids.map fun uid => (uid, collect_single_market_unit cfg api uid)) st

/-! ## Orchestrator: `DataCollectionOrchestrator.collect_all_data`
(`orchestrator.py`)

The five per-ID-list categories are collected strictly one after
another by the same `ProjectDataCollector` instance, so the two project
categories share `self.processed_project_ids` and the three market-unit
categories share `self.processed_market_unit_ids`; each category has
its own fresh output list. -/

/-- The per-category output lists of `collect_all_data`. -/
structure OutputData where
  projects_under_construction : List (String × Dict)
  projects_readymade : List (String × Dict)
  market_unit_buy : List (String × Dict)
  market_lands_buy : List (String × Dict)
  market_unit_rent : List (String × Dict)

/-- `collect_all_data` restricted to the five batch categories
(sequential collection path), with the ID lists returned by the Source
API given as inputs. -/
def collect_all_data (cfg : CollectorConfig) (api : SakaniAPI)
    (ucIds rmIds buyIds landIds rentIds : List String) : OutputData :=
  let r1 := collect_projects_batch_seq cfg api ucIds ([], [])
  let r2 := collect_projects_batch_seq cfg api rmIds (r1.1, [])
  let m1 := collect_market_units_batch_seq cfg api buyIds ([], [])
  let m2 := collect_market_units_batch_seq cfg api landIds (m1.1, [])
  let m3 := collect_market_units_batch_seq cfg api rentIds (m2.1, [])
  ⟨r1.2, r2.2, m1.2, m2.2, m3.2⟩

/-! ## Dict lemmas -/

theorem dictLookup_eq_none_of_not_mem {d : Dict} {k : String} (h : k ∉ dictKeys d) :
    dictLookup d k = none := by
  induction d with
  | nil => rfl
  | cons p rest ih =>
    obtain ⟨k1, v1⟩ := p
    simp only [dictKeys, List.map_cons, List.mem_cons, not_or] at h
    simp only [dictLookup, if_neg h.1, ih h.2]

theorem mem_dictKeys_of_lookup_some {d : Dict} {k : String} {v : Value}
    (h : dictLookup d k = some v) : k ∈ dictKeys d := by
  by_contra hk
  rw [dictLookup_eq_none_of_not_mem hk] at h
  exact Option.noConfusion h

theorem replacePair_eq {k : String} {v : Value} {k1 : String} {v1 : Value}
    (h : k1 = k) : replacePair k v (k1, v1) = (k, v) := by
  simp [replacePair, h]

theorem replacePair_ne {k : String} {v : Value} {k1 : String} {v1 : Value}
    (h : k1 ≠ k) : replacePair k v (k1, v1) = (k1, v1) := by
  simp [replacePair, h]

theorem dictLookup_map_replace_of_mem {d : Dict} {k : String} (v : Value)
    (h : k ∈ dictKeys d) :
    dictLookup (d.map (replacePair k v)) k = some v := by
  induction d with
  | nil => simp [dictKeys] at h
  | cons p rest ih =>
    obtain ⟨k1, v1⟩ := p
    by_cases hk : k1 = k
    · rw [List.map_cons, replacePair_eq hk]
      simp [dictLookup]
    · simp only [dictKeys, List.map_cons, List.mem_cons] at h
      rcases h with h | h
      · exact absurd h.symm hk
      · rw [List.map_cons, replacePair_ne hk, dictLookup, if_neg (Ne.symm hk)]
        exact ih h

theorem dictLookup_map_replace_of_ne {d : Dict} {k k' : String} (v : Value)
    (h : k' ≠ k) :
    dictLookup (d.map (replacePair k v)) k' = dictLookup d k' := by
  induction d with
  | nil => rfl
  | cons p rest ih =>
    obtain ⟨k1, v1⟩ := p
    by_cases hk : k1 = k
    · rw [List.map_cons, replacePair_eq hk, dictLookup, if_neg h, dictLookup,
        if_neg (hk ▸ h), ih]
    · rw [List.map_cons, replacePair_ne hk]
      by_cases hk' : k' = k1
      · simp [dictLookup, hk']
      · simp [dictLookup, hk', ih]

theorem dictLookup_append_of_none {d : Dict} {k : String} (tl : Dict)
    (h : dictLookup d k = none) : dictLookup (d ++ tl) k = dictLookup tl k := by
  induction d with
  | nil => rfl
  | cons p rest ih =>
    obtain ⟨k1, v1⟩ := p
    simp only [dictLookup] at h ⊢
    by_cases hk : k = k1
    · simp [hk] at h
    · simpa [hk] using ih (by simpa [hk] using h)

theorem dictLookup_append_of_some {d : Dict} {k : String} {v : Value} (tl : Dict)
    (h : dictLookup d k = some v) : dictLookup (d ++ tl) k = some v := by
  induction d with
  | nil => exact Option.noConfusion h
  | cons p rest ih =>
    obtain ⟨k1, v1⟩ := p
    simp only [dictLookup] at h ⊢
    by_cases hk : k = k1
    · simpa [hk] using h
    · simpa [hk] using ih (by simpa [hk] using h)

/-- `dictInsert` behaves like a pointwise update under lookup. -/
theorem dictLookup_dictInsert (d : Dict) (k : String) (v : Value) (k' : String) :
    dictLookup (dictInsert d k v) k' = if k' = k then some v else dictLookup d k' := by
  unfold dictInsert
  by_cases hk : k ∈ dictKeys d
  · rw [if_pos hk]
    by_cases hk' : k' = k
    · subst hk'
      rw [if_pos rfl, dictLookup_map_replace_of_mem v hk]
    · rw [if_neg hk', dictLookup_map_replace_of_ne v hk']
  · rw [if_neg hk]
    by_cases hk' : k' = k
    · subst hk'
      rw [if_pos rfl, dictLookup_append_of_none _ (dictLookup_eq_none_of_not_mem hk)]
      simp [dictLookup]
    · rw [if_neg hk']
      by_cases hd : dictLookup d k' = none
      · rw [dictLookup_append_of_none _ hd, hd]
        simp [dictLookup, hk']
      · obtain ⟨w, hw⟩ := Option.ne_none_iff_exists'.mp hd
        rw [dictLookup_append_of_some _ hw, hw]

theorem dictKeys_append (a b : Dict) : dictKeys (a ++ b) = dictKeys a ++ dictKeys b :=
  List.map_append _ _ _

theorem dictKeys_map_replace (d : Dict) (k : String) (v : Value) :
    dictKeys (d.map (replacePair k v)) = dictKeys d := by
  unfold dictKeys
  rw [List.map_map]
  refine List.map_congr_left fun p _ => ?_
  by_cases hp : p.1 = k
  · simp [replacePair, hp]
  · simp [replacePair, hp]

/-- The keys of an insert: unchanged when the key is present, appended
otherwise. -/
theorem dictKeys_dictInsert (d : Dict) (k : String) (v : Value) :
    dictKeys (dictInsert d k v)
      = if k ∈ dictKeys d then dictKeys d else dictKeys d ++ [k] := by
  unfold dictInsert
  by_cases hk : k ∈ dictKeys d
  · rw [if_pos hk, if_pos hk, dictKeys_map_replace]
  · rw [if_neg hk, if_neg hk, dictKeys_append]
    rfl

theorem nodupKeys_dictInsert {d : Dict} (k : String) (v : Value) (h : NodupKeys d) :
    NodupKeys (dictInsert d k v) := by
  unfold NodupKeys at h ⊢
  rw [dictKeys_dictInsert]
  by_cases hk : k ∈ dictKeys d
  · rwa [if_pos hk]
  · rw [if_neg hk]
    simpa [List.nodup_append] using ⟨h, hk⟩

theorem dictMerge_append (a b c : Dict) :
    dictMerge a (b ++ c) = dictMerge (dictMerge a b) c := by
  induction b generalizing a with
  | nil => rfl
  | cons p rest ih =>
    obtain ⟨k, v⟩ := p
    show dictMerge (dictInsert a k v) (rest ++ c)
        = dictMerge (dictMerge (dictInsert a k v) rest) c
    exact ih _

/-- A key absent from `b` keeps its `a` binding through `{**a, **b}`. -/
theorem dictLookup_dictMerge_of_none {b : Dict} {k : String} (a : Dict)
    (h : dictLookup b k = none) : dictLookup (dictMerge a b) k = dictLookup a k := by
  induction b generalizing a with
  | nil => rfl
  | cons p rest ih =>
    obtain ⟨k1, v1⟩ := p
    simp only [dictLookup] at h
    by_cases hk : k = k1
    · simp [hk] at h
    · rw [if_neg hk] at h
      simp only [dictMerge, ih _ h, dictLookup_dictInsert, if_neg hk]

/-- A key bound in `b` (with no duplicate keys) ends with `b`'s value
through `{**a, **b}`. -/
theorem dictLookup_dictMerge_of_some {b : Dict} {k : String} {v : Value} (a : Dict)
    (hnd : NodupKeys b) (h : dictLookup b k = some v) :
    dictLookup (dictMerge a b) k = some v := by
  induction b generalizing a with
  | nil => exact Option.noConfusion h
  | cons p rest ih =>
    obtain ⟨k1, v1⟩ := p
    simp only [NodupKeys, dictKeys, List.map_cons, List.nodup_cons] at hnd
    simp only [dictLookup] at h
    by_cases hk : k = k1
    · rw [if_pos hk] at h
      subst hk
      have hrest : dictLookup rest k = none :=
        dictLookup_eq_none_of_not_mem (by simpa [dictKeys] using hnd.1)
      rw [dictMerge, dictLookup_dictMerge_of_none _ hrest, dictLookup_dictInsert,
        if_pos rfl, h]
    · rw [if_neg hk] at h
      rw [dictMerge]
      exact ih _ hnd.2 h

theorem dictInsert_cons_eq {R : Dict} {k : String} {w : Value} (v : Value)
    (hR : k ∉ dictKeys R) : dictInsert ((k, w) :: R) k v = (k, v) :: R := by
  unfold dictInsert
  rw [if_pos (by simp [dictKeys])]
  rw [List.map_cons, replacePair_eq rfl]
  congr 1
  induction R with
  | nil => rfl
  | cons p rest ih =>
    obtain ⟨k1, v1⟩ := p
    simp only [dictKeys, List.map_cons, List.mem_cons, not_or] at hR
    rw [List.map_cons, replacePair_ne (Ne.symm hR.1), ih (by simpa [dictKeys] using hR.2)]

theorem dictInsert_cons_ne {R : Dict} {k1 : String} {w : Value} {k : String}
    (v : Value) (h : k ≠ k1) :
    dictInsert ((k1, w) :: R) k v = (k1, w) :: dictInsert R k v := by
  unfold dictInsert
  have hmem : (k ∈ dictKeys ((k1, w) :: R)) ↔ k ∈ dictKeys R := by
    simp [dictKeys, h]
  by_cases hR : k ∈ dictKeys R
  · rw [if_pos (hmem.mpr hR), if_pos hR, List.map_cons, replacePair_ne (Ne.symm h)]
  · rw [if_neg (fun hc => hR (hmem.mp hc)), if_neg hR, List.cons_append]

/-- Inserting every binding of a fresh-keyed, duplicate-free dict just
appends it. -/
theorem dictMerge_fresh :
    ∀ (b acc : Dict), (∀ k ∈ dictKeys b, k ∉ dictKeys acc) → (dictKeys b).Nodup →
      dictMerge acc b = acc ++ b
  | [], acc, _, _ => (List.append_nil acc).symm
  | (k, v) :: rest, acc, hfresh, hnd => by
    have hk : k ∉ dictKeys acc := hfresh k (by simp [dictKeys])
    simp only [dictKeys, List.map_cons, List.nodup_cons] at hnd
    rw [dictMerge, dictInsert, if_neg hk,
      dictMerge_fresh rest (acc ++ [(k, v)])
        (fun k' hk' => by
          rw [dictKeys_append]
          simp only [List.mem_append, not_or]
          refine ⟨hfresh k'
            (by simp only [dictKeys, List.map_cons, List.mem_cons]; exact Or.inr hk'), ?_⟩
          simp only [dictKeys, List.map_cons, List.map_nil, List.mem_singleton]
          intro hc
          subst hc
          exact hnd.1 hk'
        ) hnd.2,
      List.append_assoc]
    rfl

/-- Shape of `{"unit_insights": x, "unit_project_trends": y,
"unit_transactions": z, **rest, **b}`: the three enrichment keys stay in
front (values possibly overridden by `b`), followed by a duplicate-free
tail not containing them. -/
theorem dictMerge_enrichShape :
    ∀ (b : Dict) (x y z : Value) (rest : Dict),
      "unit_insights" ∉ dictKeys rest → "unit_project_trends" ∉ dictKeys rest →
      "unit_transactions" ∉ dictKeys rest → (dictKeys rest).Nodup →
      ∃ x' y' z' rest',
        dictMerge ([("unit_insights", x), ("unit_project_trends", y),
                    ("unit_transactions", z)] ++ rest) b
          = [("unit_insights", x'), ("unit_project_trends", y'),
             ("unit_transactions", z')] ++ rest'
        ∧ "unit_insights" ∉ dictKeys rest' ∧ "unit_project_trends" ∉ dictKeys rest'
        ∧ "unit_transactions" ∉ dictKeys rest' ∧ (dictKeys rest').Nodup
  | [], x, y, z, rest, h1, h2, h3, h4 => ⟨x, y, z, rest, rfl, h1, h2, h3, h4⟩
  | (k, v) :: b', x, y, z, rest, h1, h2, h3, h4 => by
    rw [dictMerge]
    by_cases hk1 : k = "unit_insights"
    · subst hk1
      rw [List.cons_append, dictInsert_cons_eq v (by simpa [dictKeys] using h1)]
      exact dictMerge_enrichShape b' v y z rest h1 h2 h3 h4
    · by_cases hk2 : k = "unit_project_trends"
      · subst hk2
        rw [List.cons_append, dictInsert_cons_ne v (by simp), List.cons_append,
          dictInsert_cons_eq v (by simpa [dictKeys] using h2)]
        exact dictMerge_enrichShape b' x v z rest h1 h2 h3 h4
      · by_cases hk3 : k = "unit_transactions"
        · subst hk3
          rw [List.cons_append, dictInsert_cons_ne v (by simp), List.cons_append,
            dictInsert_cons_ne v (by simp), List.cons_append,
            dictInsert_cons_eq v (by simpa [dictKeys] using h3)]
          exact dictMerge_enrichShape b' x y v rest h1 h2 h3 h4
        · rw [List.cons_append, dictInsert_cons_ne v hk1, List.cons_append,
            dictInsert_cons_ne v hk2, List.cons_append, dictInsert_cons_ne v hk3]
          have hkeys := dictKeys_dictInsert rest k v
          by_cases hkr : k ∈ dictKeys rest
          · rw [if_pos hkr] at hkeys
            exact dictMerge_enrichShape b' x y z (dictInsert rest k v)
              (hkeys ▸ h1) (hkeys ▸ h2) (hkeys ▸ h3) (hkeys ▸ h4)
          · rw [if_neg hkr] at hkeys
            refine dictMerge_enrichShape b' x y z (dictInsert rest k v)
              ?_ ?_ ?_ ?_
            · rw [hkeys]
              simp only [List.mem_append, List.mem_singleton, not_or]
              exact ⟨h1, fun hc => hk1 hc.symm⟩
            · rw [hkeys]
              simp only [List.mem_append, List.mem_singleton, not_or]
              exact ⟨h2, fun hc => hk2 hc.symm⟩
            · rw [hkeys]
              simp only [List.mem_append, List.mem_singleton, not_or]
              exact ⟨h3, fun hc => hk3 hc.symm⟩
            · rw [hkeys]
              simpa [List.nodup_append] using ⟨h4, hkr⟩

/-- Re-merging the empty enrichment placeholders onto an already
placeholder-merged dict changes nothing. -/
theorem dictMerge_enrich_idem (b : Dict) :
    dictMerge emptyUnitEnrichment (dictMerge emptyUnitEnrichment b)
      = dictMerge emptyUnitEnrichment b := by
  obtain ⟨x', y', z', rest', heq, h1, h2, h3, h4⟩ :=
    dictMerge_enrichShape b (Value.obj []) (Value.arr []) (Value.arr []) []
      (by simp [dictKeys]) (by simp [dictKeys]) (by simp [dictKeys])
      (by simp [dictKeys])
  have hbase : dictMerge emptyUnitEnrichment b
      = [("unit_insights", x'), ("unit_project_trends", y'),
         ("unit_transactions", z')] ++ rest' := heq
  rw [hbase, dictMerge_append]
  have hhdr : dictMerge emptyUnitEnrichment
      [("unit_insights", x'), ("unit_project_trends", y'), ("unit_transactions", z')]
      = [("unit_insights", x'), ("unit_project_trends", y'),
         ("unit_transactions", z')] := rfl
  rw [hhdr, dictMerge_fresh rest' _
    (fun k hk => by
      simp only [dictKeys, List.map_cons, List.map_nil, List.mem_cons,
        List.not_mem_nil, not_or] at *
      exact ⟨fun hc => h1 (hc ▸ hk), fun hc => h2 (hc ▸ hk),
        fun hc => h3 (hc ▸ hk), id⟩
    ) h4]

/-! ## Enricher lemmas -/

/-- Every exit of the enrich retry loop merges some three-key enrichment
dict with `**unit` spread last. -/
theorem enrichLoop_shape (cfg : CollectorConfig) (api : SakaniAPI) (uid : Value)
    (unit : Dict) :
    ∀ r i c, ∃ e, (enrichLoop cfg api uid unit r i c).1 = dictMerge e unit := by
  intro r
  induction r with
  | zero => exact fun i c => ⟨emptyUnitEnrichment, rfl⟩
  | succ r ih =>
    intro i c
    rcases hA : enrichAttempt cfg api i uid with ⟨res, n⟩
    rcases res with e | ⟨ins, tr, tx⟩
    · simp only [enrichLoop, hA]
      by_cases hr : r = 0
      · rw [if_pos hr]
        exact ⟨emptyUnitEnrichment, rfl⟩
      · rw [if_neg hr]
        exact ih (i + 1) (c + n)
    · simp only [enrichLoop, hA]
      exact ⟨[("unit_insights", ins), ("unit_project_trends", tr),
              ("unit_transactions", tx)], rfl⟩

/-- Every exit of `enrich_unit` merges some three-key enrichment dict
with `**unit` spread last. -/
theorem enrich_unit_shape (cfg : CollectorConfig) (api : SakaniAPI) (unit : Dict) :
    ∃ e, (enrich_unit cfg api unit).1 = dictMerge e unit := by
  unfold enrich_unit
  by_cases h1 :
      (!(cfg.unit_insights || cfg.unit_project_trends || cfg.unit_transactions)) = true
  · rw [if_pos h1]
    exact ⟨emptyUnitEnrichment, rfl⟩
  · rw [if_neg h1]
    by_cases h2 : isFalsy ((dictLookup unit "id").getD (Value.str "")) = true
    · rw [if_pos h2]
      exact ⟨emptyUnitEnrichment, rfl⟩
    · rw [if_neg h2]
      exact enrichLoop_shape cfg api _ unit cfg.max_retries 0 0

/-- If every attempt in range raises, the enrich retry loop returns the
placeholder merge. -/
theorem enrichLoop_all_fail (cfg : CollectorConfig) (api : SakaniAPI) (uid : Value)
    (unit : Dict) :
    ∀ r i c,
      (∀ j, j < i + r → ∀ t, (enrichAttempt cfg api j uid).1 ≠ Except.ok t) →
      (enrichLoop cfg api uid unit r i c).1 = dictMerge emptyUnitEnrichment unit := by
  intro r
  induction r with
  | zero => exact fun i c _ => rfl
  | succ r ih =>
    intro i c h
    rcases hA : enrichAttempt cfg api i uid with ⟨res, n⟩
    rcases res with e | t
    · simp only [enrichLoop, hA]
      by_cases hr : r = 0
      · rw [if_pos hr]
      · rw [if_neg hr]
        exact ih (i + 1) (c + n) fun j hj => h j (by omega)
    · exact absurd (by rw [hA]) (h i (by omega) t)

/-! ## Dedup-commit lemmas -/

/-- The locked commit preserves the invariant that committed IDs are
duplicate-free and recorded in the processed set. -/
theorem runCommits_ids_nodup_aux :
    ∀ (evs : List (String × Option Dict)) (st : BatchState),
      (st.2.map Prod.fst).Nodup ∧ (∀ x ∈ st.2.map Prod.fst, x ∈ st.1) →
      ((runCommits evs st).2.map Prod.fst).Nodup ∧
        ∀ x ∈ (runCommits evs st).2.map Prod.fst, x ∈ (runCommits evs st).1
  | [], _, h => h
  | ev :: evs, st, h => by
    refine runCommits_ids_nodup_aux evs (commitStep st ev) ?_
    rcases ev with ⟨id, d⟩
    rcases d with _ | d
    · exact h
    · by_cases hid : id ∈ st.1
      · simpa [commitStep, hid] using h
      · simp only [commitStep, if_neg hid]
        constructor
        · simp only [List.map_append]
          refine List.Nodup.append h.1 (by simp) ?_
          intro x hx hx'
          simp only [List.map_cons, List.map_nil, List.mem_singleton] at hx'
          exact hid (hx' ▸ h.2 x hx)
        · intro x hx
          simp only [List.map_append, List.mem_append, List.map_cons, List.map_nil,
            List.mem_singleton] at hx
          rcases hx with hx | hx
          · exact List.mem_cons_of_mem _ (h.2 x hx)
          · exact hx ▸ List.mem_cons_self _ _

/-- An ID is in the final processed set iff it started there or some
event delivered a truthy result for it. -/
theorem runCommits_mem_processed :
    ∀ (evs : List (String × Option Dict)) (st : BatchState) (x : String),
      x ∈ (runCommits evs st).1 ↔ x ∈ st.1 ∨ ∃ d, (x, some d) ∈ evs
  | [], st, x => by simp [runCommits]
  | ev :: evs, st, x => by
    rcases ev with ⟨id, d⟩
    show x ∈ (runCommits evs (commitStep st (id, d))).1 ↔
        x ∈ st.1 ∨ ∃ d', (x, some d') ∈ (id, d) :: evs
    rw [runCommits_mem_processed evs (commitStep st (id, d)) x]
    rcases d with _ | d
    · simp only [commitStep]
      constructor
      · rintro (hx | ⟨d', hd'⟩)
        · exact Or.inl hx
        · exact Or.inr ⟨d', List.mem_cons_of_mem _ hd'⟩
      · rintro (hx | ⟨d', hd'⟩)
        · exact Or.inl hx
        · rcases List.mem_cons.mp hd' with hc | hc
          · exact absurd (congrArg Prod.snd hc) (by simp)
          · exact Or.inr ⟨d', hc⟩
    · by_cases hid : id ∈ st.1
      · simp only [commitStep, if_pos hid]
        constructor
        · rintro (hx | ⟨d', hd'⟩)
          · exact Or.inl hx
          · exact Or.inr ⟨d', List.mem_cons_of_mem _ hd'⟩
        · rintro (hx | ⟨d', hd'⟩)
          · exact Or.inl hx
          · rcases List.mem_cons.mp hd' with hc | hc
            · exact Or.inl (by rw [show x = id from congrArg Prod.fst hc]; exact hid)
            · exact Or.inr ⟨d', hc⟩
      · simp only [commitStep, if_neg hid]
        constructor
        · rintro (hx | ⟨d', hd'⟩)
          · rcases List.mem_cons.mp hx with hc | hc
            · exact Or.inr ⟨d, hc ▸ List.mem_cons_self _ _⟩
            · exact Or.inl hc
          · exact Or.inr ⟨d', List.mem_cons_of_mem _ hd'⟩
        · rintro (hx | ⟨d', hd'⟩)
          · exact Or.inl (List.mem_cons_of_mem _ hx)
          · rcases List.mem_cons.mp hd' with hc | hc
            · exact Or.inl (by
                rw [show x = id from congrArg Prod.fst hc]
                exact List.mem_cons_self _ _)
            · exact Or.inr ⟨d', hc⟩

/-- The output list only grows. -/
theorem runCommits_out_mono :
    ∀ (evs : List (String × Option Dict)) (st : BatchState),
      ∃ t, (runCommits evs st).2 = st.2 ++ t
  | [], st => ⟨[], (List.append_nil st.2).symm⟩
  | ev :: evs, st => by
    obtain ⟨t, ht⟩ := runCommits_out_mono evs (commitStep st ev)
    show ∃ t, (runCommits evs (commitStep st ev)).2 = st.2 ++ t
    rcases ev with ⟨id, d⟩
    rcases d with _ | d
    · exact ⟨t, ht⟩
    · by_cases hid : id ∈ st.1
      · simp only [commitStep, if_pos hid] at ht ⊢
        exact ⟨t, ht⟩
      · simp only [commitStep, if_neg hid] at ht ⊢
        exact ⟨(id, d) :: t, by rw [ht, List.append_assoc]; rfl⟩

/-- Every committed record comes from the initial output or from a
truthy completion event for its ID. -/
theorem runCommits_out_subset :
    ∀ (evs : List (String × Option Dict)) (st : BatchState) (x : String) (d : Dict),
      (x, d) ∈ (runCommits evs st).2 → (x, d) ∈ st.2 ∨ (x, some d) ∈ evs
  | [], _, _, _, h => Or.inl h
  | ev :: evs, st, x, d, h => by
    rcases runCommits_out_subset evs (commitStep st ev) x d h with hc | hc
    · rcases ev with ⟨id, dd⟩
      rcases dd with _ | dd
      · exact Or.inl hc
      · by_cases hid : id ∈ st.1
        · simp only [commitStep, if_pos hid] at hc
          exact Or.inl hc
        · simp only [commitStep, if_neg hid] at hc
          rcases List.mem_append.mp hc with hc' | hc'
          · exact Or.inl hc'
          · simp only [List.mem_singleton] at hc'
            rw [show x = id from congrArg Prod.fst hc',
              show d = dd from congrArg Prod.snd hc']
            exact Or.inr (List.mem_cons_self _ _)
    · exact Or.inr (List.mem_cons_of_mem _ hc)

/-- A record is only committed for an ID that was not yet in the
processed set when the batch started. -/
theorem runCommits_out_fresh :
    ∀ (evs : List (String × Option Dict)) (st : BatchState) (x : String) (d : Dict),
      (x, d) ∈ (runCommits evs st).2 → (x, d) ∈ st.2 ∨ x ∉ st.1
  | [], _, _, _, h => Or.inl h
  | ev :: evs, st, x, d, h => by
    rcases runCommits_out_fresh evs (commitStep st ev) x d h with hc | hc
    · rcases ev with ⟨id, dd⟩
      rcases dd with _ | dd
      · exact Or.inl hc
      · by_cases hid : id ∈ st.1
        · simp only [commitStep, if_pos hid] at hc
          exact Or.inl hc
        · simp only [commitStep, if_neg hid] at hc
          rcases List.mem_append.mp hc with hc' | hc'
          · exact Or.inl hc'
          · simp only [List.mem_singleton] at hc'
            exact Or.inr (by rw [show x = id from congrArg Prod.fst hc']; exact hid)
    · rcases ev with ⟨id, dd⟩
      rcases dd with _ | dd
      · exact Or.inr hc
      · by_cases hid : id ∈ st.1
        · simp only [commitStep, if_pos hid] at hc
          exact Or.inr hc
        · simp only [commitStep, if_neg hid] at hc
          exact Or.inr fun hx => hc (List.mem_cons_of_mem _ hx)

/-- Every ID in the final processed set either started there or was
committed to the output. -/
theorem runCommits_processed_sub :
    ∀ (evs : List (String × Option Dict)) (st : BatchState) (x : String),
      x ∈ (runCommits evs st).1 →
      x ∈ st.1 ∨ x ∈ (runCommits evs st).2.map Prod.fst
  | [], _, _, h => Or.inl h
  | ev :: evs, st, x, h => by
    rcases runCommits_processed_sub evs (commitStep st ev) x h with hc | hc
    · rcases ev with ⟨id, dd⟩
      rcases dd with _ | dd
      · exact Or.inl hc
      · by_cases hid : id ∈ st.1
        · simp only [commitStep, if_pos hid] at hc
          exact Or.inl hc
        · simp only [commitStep, if_neg hid] at hc
          rcases List.mem_cons.mp hc with hc' | hc'
          · subst hc'
            obtain ⟨t, ht⟩ := runCommits_out_mono evs (commitStep st (x, some dd))
            refine Or.inr ?_
            show x ∈ (runCommits evs (commitStep st (x, some dd))).2.map Prod.fst
            rw [ht]
            simp only [commitStep, if_neg hid, List.map_append, List.mem_append]
            exact Or.inl (by simp)
          · exact Or.inl hc'
    · exact Or.inr hc

/-- Membership of a truthy completion event in a deterministic event
list. -/
theorem mem_map_events (res : String → Option Dict) (l : List String) (x : String)
    (d : Dict) :
    (x, some d) ∈ (l.map fun i => (i, res i)) ↔ x ∈ l ∧ res x = some d := by
  rw [List.mem_map]
  constructor
  · rintro ⟨i, hi, he⟩
    have h1 : i = x := congrArg Prod.fst he
    have h2 : res i = some d := congrArg Prod.snd he
    exact ⟨h1 ▸ hi, h1 ▸ h2⟩
  · rintro ⟨hx, hd⟩
    exact ⟨x, hx, by rw [hd]⟩

/-- Output membership for a batch whose events are the deterministic
per-ID results of an input list. -/
theorem runCommits_map_mem_out (res : String → Option Dict) :
    ∀ (l : List String) (st : BatchState) (x : String) (d : Dict),
      (x, d) ∈ (runCommits (l.map fun i => (i, res i)) st).2 ↔
        (x, d) ∈ st.2 ∨ (x ∉ st.1 ∧ x ∈ l ∧ res x = some d)
  | [], st, x, d => by simp [runCommits]
  | i :: l, st, x, d => by
    show (x, d) ∈ (runCommits (l.map fun i => (i, res i)) (commitStep st (i, res i))).2 ↔ _
    rw [runCommits_map_mem_out res l (commitStep st (i, res i)) x d]
    rcases hres : res i with _ | di
    · simp only [commitStep, hres]
      constructor
      · rintro (hc | hc)
        · exact Or.inl hc
        · exact Or.inr ⟨hc.1, List.mem_cons_of_mem _ hc.2.1, hc.2.2⟩
      · rintro (hc | ⟨h1, h2, h3⟩)
        · exact Or.inl hc
        · rcases List.mem_cons.mp h2 with hc' | hc'
          · rw [hc'] at h3
            rw [hres] at h3
            exact Option.noConfusion h3
          · exact Or.inr ⟨h1, hc', h3⟩
    · by_cases hid : i ∈ st.1
      · simp only [commitStep, hres, if_pos hid]
        constructor
        · rintro (hc | hc)
          · exact Or.inl hc
          · exact Or.inr ⟨hc.1, List.mem_cons_of_mem _ hc.2.1, hc.2.2⟩
        · rintro (hc | ⟨h1, h2, h3⟩)
          · exact Or.inl hc
          · rcases List.mem_cons.mp h2 with hc' | hc'
            · exact absurd (hc' ▸ hid) h1
            · exact Or.inr ⟨h1, hc', h3⟩
      · simp only [commitStep, hres, if_neg hid]
        constructor
        · rintro (hc | hc)
          · rcases List.mem_append.mp hc with hc' | hc'
            · exact Or.inl hc'
            · simp only [List.mem_singleton] at hc'
              refine Or.inr ?_
              rw [show x = i from congrArg Prod.fst hc']
              exact ⟨hid, List.mem_cons_self _ _,
                by rw [hres, show d = di from congrArg Prod.snd hc']⟩
          · refine Or.inr ⟨fun hx => hc.1 (List.mem_cons_of_mem _ hx),
              List.mem_cons_of_mem _ hc.2.1, hc.2.2⟩
        · rintro (hc | ⟨h1, h2, h3⟩)
          · exact Or.inl (List.mem_append.mpr (Or.inl hc))
          · rcases List.mem_cons.mp h2 with hc' | hc'
            · subst hc'
              rw [hres] at h3
              exact Or.inl (List.mem_append.mpr (Or.inr (by
                simp only [List.mem_singleton]
                rw [show d = di from (Option.some.inj h3).symm])))
            · by_cases hxi : x = i
              · subst hxi
                rw [hres] at h3
                exact Or.inl (List.mem_append.mpr (Or.inr (by
                  simp only [List.mem_singleton]
                  rw [show d = di from (Option.some.inj h3).symm])))
              · exact Or.inr ⟨fun hx => (List.mem_cons.mp hx).elim hxi h1, hc', h3⟩

/-- A permutation of a deterministic event list is itself the
deterministic event list of a permuted ID list. -/
theorem perm_events_eq (res : String → Option Dict) (l : List String)
    (evs : List (String × Option Dict))
    (h : evs.Perm (l.map fun i => (i, res i))) :
    evs = (evs.map Prod.fst).map (fun i => (i, res i)) ∧ (evs.map Prod.fst).Perm l := by
  constructor
  · have hm : ∀ p ∈ evs, p = (p.1, res p.1) := by
      intro p hp
      obtain ⟨i, _, hpe⟩ := List.mem_map.mp (h.mem_iff.mp hp)
      rw [← hpe]
    rw [List.map_map]
    conv_lhs => rw [← List.map_id evs]
    exact List.map_congr_left fun p hp => hm p hp
  · have : (l.map fun i => (i, res i)).map Prod.fst = l := by
      rw [List.map_map]
      exact List.map_id l
    exact this ▸ h.map Prod.fst

/-- An ID whose deterministic result is `None` can be dropped from the
input list without changing the batch outcome. -/
theorem runCommits_map_filter_none (res : String → Option Dict) (pid : String)
    (hres : res pid = none) :
    ∀ (l : List String) (st : BatchState),
      runCommits (l.map fun i => (i, res i)) st
        = runCommits (((l.filter fun i => i != pid).map fun i => (i, res i))) st
  | [], _ => rfl
  | i :: l, st => by
    by_cases hi : i = pid
    · subst hi
      show runCommits (l.map fun i => (i, res i)) (commitStep st (i, res i)) = _
      rw [List.filter_cons_of_neg (by simp)]
      have : commitStep st (i, res i) = st := by rw [hres]; rfl
      rw [this]
      exact runCommits_map_filter_none res i hres l st
    · show runCommits (l.map fun i => (i, res i)) (commitStep st (i, res i)) = _
      rw [List.filter_cons_of_pos (by simp [hi])]
      show _ = runCommits ((l.filter fun i => i != pid).map fun i => (i, res i))
        (commitStep st (i, res i))
      exact runCommits_map_filter_none res pid hres l (commitStep st (i, res i))

/-! ## Per-ID retry-failure lemmas -/

/-- If every attempt in range fails (raises or returns empty data), the
project retry loop returns `None`. -/
theorem collectProjectLoop_all_fail (cfg : CollectorConfig) (api : SakaniAPI)
    (pid : String) :
    ∀ r i,
      (∀ j, j < i + r → ∀ d, collect_project_attempt cfg api j pid ≠ Except.ok (some d)) →
      collectProjectLoop cfg api pid r i = none := by
  intro r
  induction r with
  | zero => exact fun i _ => rfl
  | succ r ih =>
    intro i h
    rcases hA : collect_project_attempt cfg api i pid with e | od
    · simp only [collectProjectLoop, hA]
      by_cases hr : r = 0
      · rw [if_pos hr]
      · rw [if_neg hr]
        exact ih (i + 1) fun j hj => h j (by omega)
    · rcases od with _ | d
      · simp only [collectProjectLoop, hA]
        by_cases hr : r = 0
        · rw [if_pos hr]
        · rw [if_neg hr]
          exact ih (i + 1) fun j hj => h j (by omega)
      · exact absurd (by rw [hA]) (h i (by omega) d)

/-- If every attempt of `_collect_single_project_data` fails, the
routine returns `None`. -/
theorem collect_single_project_data_all_fail (cfg : CollectorConfig) (api : SakaniAPI)
    (pid : String)
    (h : ∀ i < cfg.max_retries, ∀ d,
      collect_project_attempt cfg api i pid ≠ Except.ok (some d)) :
    collect_single_project_data cfg api pid = none :=
  collectProjectLoop_all_fail cfg api pid cfg.max_retries 0 fun j hj => h j (by omega)

/-- If every attempt returns empty data or raises, the market-unit
retry loop returns `None`. -/
theorem collectMarketUnitLoop_all_fail (api : SakaniAPI) (uid : String) :
    ∀ r i,
      (∀ j, j < i + r → ∀ d, api.get_market_unit_details j uid = Except.ok d → d = []) →
      collectMarketUnitLoop api uid r i = none := by
  intro r
  induction r with
  | zero => exact fun i _ => rfl
  | succ r ih =>
    intro i h
    rcases hA : api.get_market_unit_details i uid with e | d
    · simp only [collectMarketUnitLoop, hA]
      by_cases hr : r = 0
      · rw [if_pos hr]
      · rw [if_neg hr]
        exact ih (i + 1) fun j hj => h j (by omega)
    · have hd : d = [] := h i (by omega) d hA
      subst hd
      simp only [collectMarketUnitLoop, hA, List.isEmpty_nil, if_pos]
      by_cases hr : r = 0
      · rw [if_pos hr]
      · rw [if_neg hr]
        exact ih (i + 1) fun j hj => h j (by omega)

/-- If every attempt of `_collect_single_market_unit` fails, the routine
returns `None`. -/
theorem collect_single_market_unit_all_fail (cfg : CollectorConfig) (api : SakaniAPI)
    (uid : String)
    (h : ∀ i < cfg.max_retries, ∀ d,
      api.get_market_unit_details i uid = Except.ok d → d = []) :
    collect_single_market_unit cfg api uid = none :=
  collectMarketUnitLoop_all_fail api uid cfg.max_retries 0 fun j hj => h j (by omega)

/-- Running the locked commits in any completion order of the same
deterministic per-ID results yields the same committed records up to
output-list order, and the same processed set. -/
theorem runCommits_perm_invariant (res : String → Option Dict) (l : List String)
    (evs : List (String × Option Dict)) (P0 : List String)
    (h : evs.Perm (l.map fun i => (i, res i))) :
    (runCommits evs (P0, [])).2.Perm
        (runCommits (l.map fun i => (i, res i)) (P0, [])).2
    ∧ ∀ x, x ∈ (runCommits evs (P0, [])).1 ↔
        x ∈ (runCommits (l.map fun i => (i, res i)) (P0, [])).1 := by
  obtain ⟨heq, hperm⟩ := perm_events_eq res l evs h
  have hmem : ∀ x d,
      (x, d) ∈ (runCommits evs (P0, [])).2 ↔
        (x, d) ∈ (runCommits (l.map fun i => (i, res i)) (P0, [])).2 := by
    intro x d
    rw [show runCommits evs (P0, []) =
          runCommits ((evs.map Prod.fst).map fun i => (i, res i)) (P0, []) from by
        rw [← heq]]
    rw [runCommits_map_mem_out res (evs.map Prod.fst) (P0, []) x d,
      runCommits_map_mem_out res l (P0, []) x d]
    rw [show (x ∈ evs.map Prod.fst) = (x ∈ l) from propext hperm.mem_iff]
  constructor
  · have hn1 : (runCommits evs (P0, [])).2.Nodup :=
      List.Nodup.of_map Prod.fst (runCommits_ids_nodup_aux evs (P0, []) (by simp)).1
    have hn2 : (runCommits (l.map fun i => (i, res i)) (P0, [])).2.Nodup :=
      List.Nodup.of_map Prod.fst
        (runCommits_ids_nodup_aux (l.map fun i => (i, res i)) (P0, []) (by simp)).1
    refine List.Subperm.antisymm ?_ ?_
    · exact List.subperm_of_subset hn1 fun p hp => (hmem p.1 p.2).mp hp
    · exact List.subperm_of_subset hn2 fun p hp => (hmem p.1 p.2).mpr hp
  · intro x
    rw [runCommits_mem_processed, runCommits_mem_processed]
    have he : ∀ d, ((x, some d) ∈ evs) ↔
        ((x, some d) ∈ (l.map fun i => (i, res i))) := fun d => h.mem_iff
    constructor
    · rintro (hx | ⟨d, hd⟩)
      · exact Or.inl hx
      · exact Or.inr ⟨d, (he d).mp hd⟩
    · rintro (hx | ⟨d, hd⟩)
      · exact Or.inl hx
      · exact Or.inr ⟨d, (he d).mpr hd⟩

/-! ## Claim theorems -/

/-- C1: for every batch of completion events reaching the commit
section in any order — including the same ID completing twice — the
category's output list receives at most one record per ID, because the
membership test and insert execute as one atomic critical section under
the collector's lock (modelled by `commitStep` being a single step). -/
theorem C1_dedup_invariant (evs : List (String × Option Dict)) (P0 : List String)
    (x : String) :
    ((runCommits evs (P0, [])).2.map Prod.fst).count x ≤ 1 :=
  List.nodup_iff_count_le_one.mp
    (runCommits_ids_nodup_aux evs (P0, []) (by simp)).1 x

/-- C2 (evaluation of the code at the failing input): two concurrent
`trigger_global_pause` calls arriving while the gate is OPEN serialize
on `self.lock`; because the sleep happens inside the critical section
and the event is re-set before the lock is released, the second caller
also observes the event set and performs a second full pause — the
trace contains two sleep episodes, not one. -/
theorem C2_two_triggers_two_pauses (m : Nat) :
    runSerializedTriggers m 2 true
      = (true, [GateEv.clearPauseEvent, GateEv.sleepSeconds (m * 60),
                GateEv.setPauseEvent, GateEv.clearPauseEvent,
                GateEv.sleepSeconds (m * 60), GateEv.setPauseEvent])
    ∧ countSleepEvents (runSerializedTriggers m 2 true).2 = 2 :=
  ⟨rfl, rfl⟩

/-- C5: for every child unit whose enrichment attempts all raise —
in particular one that fails on the final `max_retries`-th attempt,
which is only reached after every earlier attempt failed — `enrich_unit`
returns the base child merged over the three empty placeholders instead
of raising. -/
theorem C5_final_failure_placeholders (cfg : CollectorConfig) (api : SakaniAPI)
    (unit : Dict)
    (h : ∀ i < cfg.max_retries, ∀ t,
      (enrichAttempt cfg api i ((dictLookup unit "id").getD (Value.str ""))).1
        ≠ Except.ok t) :
    (enrich_unit cfg api unit).1 = dictMerge emptyUnitEnrichment unit := by
  unfold enrich_unit
  by_cases h1 :
      (!(cfg.unit_insights || cfg.unit_project_trends || cfg.unit_transactions)) = true
  · rw [if_pos h1]
  · rw [if_neg h1]
    by_cases h2 : isFalsy ((dictLookup unit "id").getD (Value.str "")) = true
    · rw [if_pos h2]
    · rw [if_neg h2]
      exact enrichLoop_all_fail cfg api _ unit cfg.max_retries 0 0
        fun j hj => h j (by omega)

/-- C6: with all three secondary-fetch flags disabled, `enrich_unit`
returns exactly the base input merged over the three empty placeholders,
performs zero secondary network calls, and is idempotent. -/
theorem C6_disabled_enrichment (cfg : CollectorConfig) (api : SakaniAPI) (unit : Dict)
    (h1 : cfg.unit_insights = false) (h2 : cfg.unit_project_trends = false)
    (h3 : cfg.unit_transactions = false) :
    enrich_unit cfg api unit = (dictMerge emptyUnitEnrichment unit, 0)
    ∧ (enrich_unit cfg api (enrich_unit cfg api unit).1).1
        = (enrich_unit cfg api unit).1 := by
  have hflag :
      (!(cfg.unit_insights || cfg.unit_project_trends || cfg.unit_transactions)) = true := by
    rw [h1, h2, h3]
    rfl
  have hbase : ∀ u : Dict, enrich_unit cfg api u = (dictMerge emptyUnitEnrichment u, 0) := by
    intro u
    unfold enrich_unit
    rw [if_pos hflag]
  refine ⟨hbase unit, ?_⟩
  rw [hbase unit, hbase (dictMerge emptyUnitEnrichment unit)]
  exact dictMerge_enrich_idem unit

/-- C10: every field present in the base unit keeps its base value in
the enrichment output: the three enrichment keys are spread first and
`**unit` last, so base-unit fields win every key collision. -/
theorem C10_base_fields_preserved (cfg : CollectorConfig) (api : SakaniAPI)
    (unit : Dict) (k : String) (v : Value)
    (hnd : NodupKeys unit) (h : dictLookup unit k = some v) :
    dictLookup (enrich_unit cfg api unit).1 k = some v := by
  obtain ⟨e, he⟩ := enrich_unit_shape cfg api unit
  rw [he]
  exact dictLookup_dictMerge_of_some e hnd h

/-- C7: a batch run with the worker pool — whose completions reach the
locked commit in an arbitrary order `evs` that is some permutation of
the per-ID results — commits the same records as the sequential run on
the calling thread, up to output-list ordering, with the same processed
set and the same treatment of failed IDs; the nested enricher fan-out
likewise yields the same multiset of enriched children. -/
theorem C7_threading_equivalence (cfg : CollectorConfig) (api : SakaniAPI)
    (pids uids : List String) (evsP evsM : List (String × Option Dict))
    (P0 Q0 : List String)
    (hP : evsP.Perm (pids.map fun pid => (pid, collect_single_project_data cfg api pid)))
    (hM : evsM.Perm (uids.map fun uid => (uid, collect_single_market_unit cfg api uid))) :
    ((runCommits evsP (P0, [])).2.Perm (collect_projects_batch_seq cfg api pids (P0, [])).2
      ∧ ∀ x, x ∈ (runCommits evsP (P0, [])).1 ↔
          x ∈ (collect_projects_batch_seq cfg api pids (P0, [])).1)
    ∧ ((runCommits evsM (Q0, [])).2.Perm
          (collect_market_units_batch_seq cfg api uids (Q0, [])).2
      ∧ ∀ x, x ∈ (runCommits evsM (Q0, [])).1 ↔
          x ∈ (collect_market_units_batch_seq cfg api uids (Q0, [])).1)
    ∧ ∀ (units units' : List Dict), units.Perm units' →
        (units.map fun u => (enrich_unit cfg api u).1).Perm
          (units'.map fun u => (enrich_unit cfg api u).1) :=
  ⟨runCommits_perm_invariant (collect_single_project_data cfg api) pids evsP P0 hP,
   runCommits_perm_invariant (collect_single_market_unit cfg api) uids evsM Q0 hM,
   fun _ _ hu => hu.map _⟩

/-- C4: an ID whose fetch fails (raises or returns empty) on every one
of its `max_retries` attempts yields `None` from the per-ID routine, so
no record for it is committed, and the batch result is exactly the
result of running the batch without that ID — the failure is non-fatal
and every other ID is still collected.  Both the project batch and the
market-unit batch are covered. -/
theorem C4_exhausted_retries_excluded (cfg : CollectorConfig) (api : SakaniAPI)
    (pid uid : String) (pids uids : List String) (P0 Q0 : List String)
    (hp : ∀ i < cfg.max_retries, ∀ d,
      collect_project_attempt cfg api i pid ≠ Except.ok (some d))
    (hm : ∀ i < cfg.max_retries, ∀ d,
      api.get_market_unit_details i uid = Except.ok d → d = []) :
    collect_single_project_data cfg api pid = none
    ∧ collect_projects_batch_seq cfg api pids (P0, [])
        = collect_projects_batch_seq cfg api (pids.filter fun i => i != pid) (P0, [])
    ∧ (∀ d, (pid, d) ∉ (collect_projects_batch_seq cfg api pids (P0, [])).2)
    ∧ collect_single_market_unit cfg api uid = none
    ∧ collect_market_units_batch_seq cfg api uids (Q0, [])
        = collect_market_units_batch_seq cfg api (uids.filter fun i => i != uid) (Q0, [])
    ∧ ∀ d, (uid, d) ∉ (collect_market_units_batch_seq cfg api uids (Q0, [])).2 := by
  have hpn : collect_single_project_data cfg api pid = none :=
    collect_single_project_data_all_fail cfg api pid hp
  have hmn : collect_single_market_unit cfg api uid = none :=
    collect_single_market_unit_all_fail cfg api uid hm
  refine ⟨hpn, ?_, ?_, hmn, ?_, ?_⟩
  · exact runCommits_map_filter_none _ pid hpn pids (P0, [])
  · intro d hd
    rcases runCommits_out_subset _ (P0, []) pid d hd with hc | hc
    · exact List.not_mem_nil _ hc
    · exact absurd ((mem_map_events _ pids pid d).mp hc).2 (by rw [hpn]; simp)
  · exact runCommits_map_filter_none _ uid hmn uids (Q0, [])
  · intro d hd
    rcases runCommits_out_subset _ (Q0, []) uid d hd with hc | hc
    · exact List.not_mem_nil _ hc
    · exact absurd ((mem_map_events _ uids uid d).mp hc).2 (by rw [hmn]; simp)

/-- C9: a throttling response (status 403 or 429) makes `make_request`
call `trigger_global_pause` after the pacing delay and then raise; it
never returns a successful result for a throttled response. -/
theorem C9_throttling_pauses_and_raises (speed_factor : ℚ) (allow_404 : Bool)
    (url : String) (resp : HttpResponse)
    (h : resp.status_code = 403 ∨ resp.status_code = 429) :
    make_request speed_factor allow_404 url (Except.ok resp)
      = (Except.error (ReqError.statusError resp.status_code),
         [HttpEv.waitIfPaused, HttpEv.httpGet url,
          HttpEv.pacingSleep (speed_factor - 1/50) (speed_factor + 1/50),
          HttpEv.triggerGlobalPause resp.status_code url]) := by
  rcases h with h | h <;>
    simp [make_request, h]

/-- C8 (amended): whenever the transport call returns a response — any
status code, success or HTTP failure alike — exactly one pacing sleep,
uniform over the window `speed_factor ± 0.02`, is executed after the
call. -/
theorem C8_pacing_after_every_response (speed_factor : ℚ) (allow_404 : Bool)
    (url : String) (resp : HttpResponse) :
    (make_request speed_factor allow_404 url (Except.ok resp)).2.countP isPacingSleep = 1
    ∧ HttpEv.pacingSleep (speed_factor - 1/50) (speed_factor + 1/50)
        ∈ (make_request speed_factor allow_404 url (Except.ok resp)).2 := by
  rcases resp with ⟨code, body⟩
  unfold make_request
  by_cases h1 : (allow_404 && code == 404) = true
  · simp [h1, isPacingSleep, List.countP_cons]
  · by_cases h2 : (code == 403 || code == 429) = true
    · simp [h1, h2, isPacingSleep, List.countP_cons]
    · by_cases h3 : (code != 200) = true
      · simp [h1, h2, h3, isPacingSleep, List.countP_cons]
      · rcases body with e | v <;>
          simp [h1, h2, h3, isPacingSleep, List.countP_cons]

/-- C8 counterexample: when the transport call itself raises (a network
error before any response exists), `make_request` re-raises without
executing any pacing sleep — so the delay is not applied on literally
every invocation. -/
theorem C8_counterexample :
    (make_request 1 false "u" (Except.error ())).2.countP isPacingSleep = 0
    ∧ (make_request 1 false "u" (Except.error ())).2
        = [HttpEv.waitIfPaused, HttpEv.httpGet "u"] :=
  ⟨rfl, rfl⟩

/-! ## Concrete fixtures for counterexamples and witnesses -/

/-- A collector configuration with one retry attempt and every optional
enrichment disabled. -/
def testCfg : CollectorConfig := ⟨1, false, false, false, false, false, false, false⟩

/-- A collector configuration with two retry attempts and unit insights
enabled. -/
def enrichCfg : CollectorConfig := ⟨2, true, false, false, false, false, false, false⟩

/-- An API oracle on which every call succeeds with minimal data. -/
def testAPI : SakaniAPI where
  get_project_details := fun _ _ => Except.ok [("k", Value.null)]
  get_price_trends := fun _ _ => Except.ok (Value.arr [])
  get_demographics := fun _ _ => Except.ok (Value.obj [])
  get_project_insight := fun _ _ => Except.ok (Value.obj [])
  get_project_transactions := fun _ _ => Except.ok (Value.arr [])
  get_available_units := fun _ _ => Except.ok []
  get_unit_models := fun _ _ => Except.ok (Value.arr [])
  get_unit_insights := fun _ _ => Except.ok (Value.obj [])
  get_unit_project_trends := fun _ _ => Except.ok (Value.arr [])
  get_unit_transactions := fun _ _ => Except.ok (Value.arr [])
  get_market_unit_details := fun _ _ => Except.ok [("k", Value.null)]
  extract_project_data := fun _ => []

/-- An API oracle on which record fetches and unit insights always
raise. -/
def failAPI : SakaniAPI where
  get_project_details := fun _ _ => Except.error ()
  get_price_trends := fun _ _ => Except.ok (Value.arr [])
  get_demographics := fun _ _ => Except.ok (Value.obj [])
  get_project_insight := fun _ _ => Except.ok (Value.obj [])
  get_project_transactions := fun _ _ => Except.ok (Value.arr [])
  get_available_units := fun _ _ => Except.ok []
  get_unit_models := fun _ _ => Except.ok (Value.arr [])
  get_unit_insights := fun _ _ => Except.error ()
  get_unit_project_trends := fun _ _ => Except.ok (Value.arr [])
  get_unit_transactions := fun _ _ => Except.ok (Value.arr [])
  get_market_unit_details := fun _ _ => Except.error ()
  extract_project_data := fun _ => []

/-- The project record `testAPI` produces for any project ID. -/
def projRecordW : Dict :=
  [("price_trends", Value.arr []), ("demographics", Value.obj []),
   ("project_insight", Value.obj []), ("project_transactions", Value.arr []),
   ("available_units", Value.arr []), ("unit_models", Value.arr [])]

/-- The market-unit record `testAPI` produces for unit ID `p1`. -/
def marketRecordW : Dict := [("unit_id", Value.str "p1"), ("k", Value.null)]

/-- A child unit with a usable id and one payload field. -/
def unitW : Dict := [("id", Value.str "u1"), ("price", Value.num 5)]

/-! ## C3: corrected -/

/-- C3 counterexample: the same project ID appearing in both project
categories is committed only to the first one — `processed_project_ids`
is shared by both project categories, not scoped per category, so the
readymade output stays empty although the fetch succeeds. -/
theorem C3_counterexample :
    (collect_all_data testCfg testAPI ["p1"] ["p1"] [] [] []).projects_under_construction.map Prod.fst = ["p1"]
    ∧ (collect_all_data testCfg testAPI ["p1"] ["p1"] [] [] []).projects_readymade = [] :=
  ⟨rfl, rfl⟩

/-- C3 (amended): the dedup set is scoped per entity kind per run, not
per category: both project categories share one processed set, so an ID
committed under construction is never committed again as readymade; but
the market-unit categories use a separate set, so the same ID can be
committed both as a project and as a market unit in one run. -/
theorem C3_amended_kind_scoped_dedup (cfg : CollectorConfig) (api : SakaniAPI)
    (ucIds rmIds buyIds landIds rentIds : List String) :
    (∀ x, x ∈ ((collect_all_data cfg api ucIds rmIds buyIds landIds rentIds).projects_under_construction.map Prod.fst) →
        x ∉ ((collect_all_data cfg api ucIds rmIds buyIds landIds rentIds).projects_readymade.map Prod.fst))
    ∧ ∀ x d d', x ∈ ucIds → collect_single_project_data cfg api x = some d →
        x ∈ buyIds → collect_single_market_unit cfg api x = some d' →
        x ∈ ((collect_all_data cfg api ucIds rmIds buyIds landIds rentIds).projects_under_construction.map Prod.fst)
        ∧ x ∈ ((collect_all_data cfg api ucIds rmIds buyIds landIds rentIds).market_unit_buy.map Prod.fst) := by
  constructor
  · intro x hx hx'
    have hx1 : x ∈ (collect_projects_batch_seq cfg api ucIds ([], [])).2.map Prod.fst := hx
    have hx2 : x ∈ (collect_projects_batch_seq cfg api rmIds
        ((collect_projects_batch_seq cfg api ucIds ([], [])).1, [])).2.map Prod.fst := hx'
    have hP : x ∈ (collect_projects_batch_seq cfg api ucIds ([], [])).1 :=
      (runCommits_ids_nodup_aux
        (ucIds.map fun i => (i, collect_single_project_data cfg api i)) ([], [])
        (by simp)).2 x hx1
    obtain ⟨p, hmem, hfst⟩ := List.mem_map.mp hx2
    rcases runCommits_out_fresh
        (rmIds.map fun i => (i, collect_single_project_data cfg api i))
        ((collect_projects_batch_seq cfg api ucIds ([], [])).1, []) p.1 p.2 hmem with
      hc | hc
    · exact List.not_mem_nil _ hc
    · exact hc (by rw [hfst]; exact hP)
  · intro x d d' hxu hres hxb hres'
    constructor
    · have hP : x ∈ (collect_projects_batch_seq cfg api ucIds ([], [])).1 :=
        (runCommits_mem_processed
          (ucIds.map fun i => (i, collect_single_project_data cfg api i))
          ([], []) x).mpr
          (Or.inr ⟨d, (mem_map_events _ ucIds x d).mpr ⟨hxu, hres⟩⟩)
      rcases runCommits_processed_sub
          (ucIds.map fun i => (i, collect_single_project_data cfg api i))
          ([], []) x hP with hc | hc
      · exact absurd hc (List.not_mem_nil x)
      · exact hc
    · have hP : x ∈ (collect_market_units_batch_seq cfg api buyIds ([], [])).1 :=
        (runCommits_mem_processed
          (buyIds.map fun i => (i, collect_single_market_unit cfg api i))
          ([], []) x).mpr
          (Or.inr ⟨d', (mem_map_events _ buyIds x d').mpr ⟨hxb, hres'⟩⟩)
      rcases runCommits_processed_sub
          (buyIds.map fun i => (i, collect_single_market_unit cfg api i))
          ([], []) x hP with hc | hc
      · exact absurd hc (List.not_mem_nil x)
      · exact hc

/-- C3 amended, witness: project ID `p1` succeeds everywhere; it is
committed both to the under-construction projects and to the buy market
units in the same run. -/
theorem C3_amended_witness :
    "p1" ∈ ((collect_all_data testCfg testAPI ["p1"] ["p1"] ["p1"] [] []).projects_under_construction.map Prod.fst)
    ∧ "p1" ∈ ((collect_all_data testCfg testAPI ["p1"] ["p1"] ["p1"] [] []).market_unit_buy.map Prod.fst) :=
  (C3_amended_kind_scoped_dedup testCfg testAPI ["p1"] ["p1"] ["p1"] [] []).2
    "p1" projRecordW marketRecordW (by simp) rfl (by simp) rfl

/-! ## Witnesses -/

/-- C4 witness: with one retry attempt and an API whose record fetches
always raise, the failing IDs are absent from the outputs and the
batches equal their runs without those IDs. -/
theorem C4_witness :
    collect_single_project_data testCfg failAPI "p1" = none
    ∧ collect_projects_batch_seq testCfg failAPI ["p1", "p2"] ([], [])
        = collect_projects_batch_seq testCfg failAPI
            (["p1", "p2"].filter fun i => i != "p1") ([], [])
    ∧ (∀ d, ("p1", d) ∉ (collect_projects_batch_seq testCfg failAPI ["p1", "p2"] ([], [])).2)
    ∧ collect_single_market_unit testCfg failAPI "u1" = none
    ∧ collect_market_units_batch_seq testCfg failAPI ["u1", "u2"] ([], [])
        = collect_market_units_batch_seq testCfg failAPI
            (["u1", "u2"].filter fun i => i != "u1") ([], [])
    ∧ ∀ d, ("u1", d) ∉ (collect_market_units_batch_seq testCfg failAPI ["u1", "u2"] ([], [])).2 :=
  C4_exhausted_retries_excluded testCfg failAPI "p1" "u1" ["p1", "p2"] ["u1", "u2"] [] []
    (fun i hi d h => by
      have hi1 : i < 1 := hi
      have h0 : i = 0 := by omega
      subst h0
      rw [show collect_project_attempt testCfg failAPI 0 "p1" = Except.error () from rfl] at h
      exact Except.noConfusion h)
    (fun i hi d h => by
      have hi1 : i < 1 := hi
      have h0 : i = 0 := by omega
      subst h0
      rw [show failAPI.get_market_unit_details 0 "u1" = Except.error () from rfl] at h
      exact Except.noConfusion h)

/-- C5 witness: unit insights enabled, two attempts, insights fetch
always raises — the enriched record is the base child over the empty
placeholders. -/
theorem C5_witness :
    (enrich_unit enrichCfg failAPI unitW).1 = dictMerge emptyUnitEnrichment unitW :=
  C5_final_failure_placeholders enrichCfg failAPI unitW
    (fun i hi t h => by
      have hi2 : i < 2 := hi
      interval_cases i
      · rw [show (enrichAttempt enrichCfg failAPI 0
            ((dictLookup unitW "id").getD (Value.str ""))).1 = Except.error () from rfl] at h
        exact Except.noConfusion h
      · rw [show (enrichAttempt enrichCfg failAPI 1
            ((dictLookup unitW "id").getD (Value.str ""))).1 = Except.error () from rfl] at h
        exact Except.noConfusion h)

/-- C6 witness: all secondary-fetch flags disabled on a concrete child. -/
theorem C6_witness :
    enrich_unit testCfg testAPI unitW = (dictMerge emptyUnitEnrichment unitW, 0)
    ∧ (enrich_unit testCfg testAPI (enrich_unit testCfg testAPI unitW).1).1
        = (enrich_unit testCfg testAPI unitW).1 :=
  C6_disabled_enrichment testCfg testAPI unitW rfl rfl rfl

/-- C7 witness: a two-ID market batch whose worker completions arrive in
reversed order commits a permutation of the sequential output. -/
theorem C7_witness :
    (runCommits [("b", collect_single_market_unit testCfg testAPI "b"),
                 ("a", collect_single_market_unit testCfg testAPI "a")] ([], [])).2.Perm
      (collect_market_units_batch_seq testCfg testAPI ["a", "b"] ([], [])).2 :=
  (C7_threading_equivalence testCfg testAPI ["a", "b"] ["a", "b"]
    [("b", collect_single_project_data testCfg testAPI "b"),
     ("a", collect_single_project_data testCfg testAPI "a")]
    [("b", collect_single_market_unit testCfg testAPI "b"),
     ("a", collect_single_market_unit testCfg testAPI "a")] [] []
    (List.Perm.swap ("a", collect_single_project_data testCfg testAPI "a")
      ("b", collect_single_project_data testCfg testAPI "b") [])
    (List.Perm.swap ("a", collect_single_market_unit testCfg testAPI "a")
      ("b", collect_single_market_unit testCfg testAPI "b") [])).2.1.1

/-- C9 witness: a 403 response triggers the global pause and raises. -/
theorem C9_witness :
    make_request 1 false "u" (Except.ok ⟨403, Except.ok Value.null⟩)
      = (Except.error (ReqError.statusError 403),
         [HttpEv.waitIfPaused, HttpEv.httpGet "u",
          HttpEv.pacingSleep (1 - 1/50) (1 + 1/50),
          HttpEv.triggerGlobalPause 403 "u"]) :=
  C9_throttling_pauses_and_raises 1 false "u" ⟨403, Except.ok Value.null⟩ (Or.inl rfl)

/-- C10 witness: a base field of a concrete child survives enrichment
unchanged. -/
theorem C10_witness :
    dictLookup (enrich_unit testCfg testAPI unitW).1 "price" = some (Value.num 5) :=
  C10_base_fields_preserved testCfg testAPI unitW "price" (Value.num 5)
    (by simp [NodupKeys, dictKeys, unitW]) rfl

end Sakani
